import Mathlib

/-!
Verification of the MemNote card-derivation and study-queue engine.

The development shallowly embeds the card extraction, card-table
derivation, ancestor resolution, SRS record update, and study-session
state machine of the MemNote application (src/App.tsx,
src/components/SettingsModal.tsx, the CardTable component and the shared
type declarations).  JavaScript strings are modelled as Lean `String`,
JavaScript numbers holding integer counts as `Nat`, and the two
never-computed numeric SRS fields (`interval`, `easeFactor`) as `ℚ`.
Optional TypeScript fields are modelled as `Option`.
-/

namespace MemNote

/-! ### JavaScript string primitives

The extraction code only ever splits on the two-character delimiters
`::` and `;;`, so `split`, `includes` and `trim` are modelled for a
generic two-character delimiter, working on the character list of a
`String` exactly as the left-to-right, non-overlapping JavaScript
`String.prototype.split` does. -/

/-- Prepend a character to the first chunk of a split result
(used to rebuild the current chunk while scanning). -/
def consHead (c : Char) : List (List Char) → List (List Char)
  | [] => [[c]]
  | l :: ls => (c :: l) :: ls

/-- JavaScript `s.split(d₁d₂)` on character lists: scan left to right,
breaking at each non-overlapping occurrence of the two-character
delimiter. -/
def splitOnPair (d₁ d₂ : Char) : List Char → List (List Char)
  | [] => [[]]
  | [c] => [[c]]
  | c :: c₂ :: rest =>
    if c = d₁ ∧ c₂ = d₂ then [] :: splitOnPair d₁ d₂ rest
    else consHead c (splitOnPair d₁ d₂ (c₂ :: rest))

/-- JavaScript `s.includes(d₁d₂)` for a two-character pattern. -/
def containsPair (d₁ d₂ : Char) : List Char → Bool
  | [] => false
  | [_] => false
  | c :: c₂ :: rest => (c = d₁ && c₂ = d₂) || containsPair d₁ d₂ (c₂ :: rest)

/-- JavaScript `s.trim()` on character lists: drop whitespace from both
ends. -/
def jsTrimChars (l : List Char) : List Char :=
  ((l.dropWhile Char.isWhitespace).reverse.dropWhile Char.isWhitespace).reverse

/-- JavaScript `s.trim()`. -/
def jsTrim (s : String) : String := ⟨jsTrimChars s.data⟩

/-- JavaScript `s.split(d₁d₂)` producing strings. -/
def jsSplitOn (d₁ d₂ : Char) (s : String) : List String :=
  (splitOnPair d₁ d₂ s.data).map String.mk

/-- JavaScript `s.includes(d₁d₂)`. -/
def jsIncludes (d₁ d₂ : Char) (s : String) : Bool :=
  containsPair d₁ d₂ s.data

/-- Scan for a closing brace; every character skipped on the way is not
a closing brace, so this realises the tail of the regex span. -/
def closeSearch : List Char → Bool
  | [] => false
  | c :: rest => if c = '}' then true else closeSearch rest

/-- At least one non-brace character followed by a closing brace:
the body of one cloze span. -/
def bodyThenClose : List Char → Bool
  | [] => false
  | c :: rest => !(c = '}') && closeSearch rest

/-- JavaScript regex test for a cloze span (an opening brace, one or
more characters none of which is a closing brace, then a closing
brace) occurring anywhere in the text. -/
def hasClozeSpan : List Char → Bool
  | [] => false
  | c :: rest => (c = '{' && bodyThenClose rest) || hasClozeSpan rest

/-! ### Data model (shared type declarations of the repository) -/

/-- The literal `2.5` used by the source as the default ease factor,
given as an explicitly reduced rational so that kernel evaluation works. -/
def easeFactorDefault : ℚ := ⟨5, 2, by decide, by decide⟩

/-- Per-block SRS record (`Block.srsData` in the type declarations).
`lapses` and `disabled` are optional in the TypeScript interface.
`lastReview` is not declared in the interface but is written by
`handleUpdateCardProgress`, so a faithful model of the runtime record
carries it. -/
structure SrsData where
  nextReview : Nat
  interval : ℚ
  easeFactor : ℚ
  repetitions : Nat
  lapses : Option Nat
  disabled : Option Bool
  lastReview : Option Nat
deriving DecidableEq, Repr

/-- The inline fallback literal used when a block has no `srsData`:
`nextReview 0, interval 0, easeFactor 2.5, repetitions 0, lapses 0,
disabled false`. -/
def srsDefault : SrsData :=
  { nextReview := 0, interval := 0, easeFactor := easeFactorDefault,
    repetitions := 0, lapses := some 0, disabled := some false,
    lastReview := none }

/-- One outline block.  The presentation-only optional fields
`isFlashcard` and `parentId` are never read by any of the modelled
code and are omitted. -/
structure Block where
  id : String
  content : String
  level : Nat
  srsData : Option SrsData
deriving DecidableEq, Repr

/-- A document: ordered blocks plus metadata. -/
structure Document where
  id : String
  folderId : Option String
  title : String
  blocks : List Block
  lastModified : Nat
deriving DecidableEq, Repr

/-- A derived flashcard as built by `extractCards` in App.tsx.
`cardType` is one of the strings forward, bidirectional, cloze and
`status` is new or review. -/
structure Flashcard where
  id : String
  front : String
  back : String
  blockId : String
  docId : String
  cardType : String
  status : String
  nextReview : Nat
  interval : ℚ
  easeFactor : ℚ
  repetitions : Nat
  lapses : Option Nat
  disabled : Option Bool
deriving DecidableEq, Repr

/-! ### Study extractor (extractCards, src/App.tsx lines 237-273) -/

/-- Cards emitted by `extractCards` for one block of one document.
Faithful to the source: a disabled record suppresses extraction; a
`::` content emits one card of type forward with id `blockId_fwd`;
otherwise a `;;` content emits one forward card with the same id
shape; otherwise a cloze span emits one cloze card with id
`blockId_cloze`; fronts and backs are the trimmed first two split
parts. -/
def extractFromBlock (docId : String) (b : Block) : List Flashcard :=
  let srs := b.srsData.getD srsDefault
  if srs.disabled.getD false then []
  else
    let st := if srs.repetitions = 0 then "new" else "review"
    if jsIncludes ':' ':' b.content then
      match jsSplitOn ':' ':' b.content with
      | p₀ :: p₁ :: _ =>
        [{ id := b.id ++ "_fwd", front := jsTrim p₀, back := jsTrim p₁,
           blockId := b.id, docId := docId, cardType := "forward",
           status := st, nextReview := srs.nextReview,
           interval := srs.interval, easeFactor := srs.easeFactor,
           repetitions := srs.repetitions, lapses := srs.lapses,
           disabled := srs.disabled }]
      | _ => []
    else if jsIncludes ';' ';' b.content then
      match jsSplitOn ';' ';' b.content with
      | p₀ :: p₁ :: _ =>
        [{ id := b.id ++ "_fwd", front := jsTrim p₀, back := jsTrim p₁,
           blockId := b.id, docId := docId, cardType := "forward",
           status := st, nextReview := srs.nextReview,
           interval := srs.interval, easeFactor := srs.easeFactor,
           repetitions := srs.repetitions, lapses := srs.lapses,
           disabled := srs.disabled }]
      | _ => []
    else if hasClozeSpan b.content.data then
      [{ id := b.id ++ "_cloze", front := b.content, back := b.content,
         blockId := b.id, docId := docId, cardType := "cloze",
         status := st, nextReview := srs.nextReview,
         interval := srs.interval, easeFactor := srs.easeFactor,
         repetitions := srs.repetitions, lapses := srs.lapses,
         disabled := srs.disabled }]
    else []

/-- `extractCards` of App.tsx: concatenation over every block of every
scanned document in order. -/
def extractCards (docs : List Document) : List Flashcard :=
  docs.flatMap (fun doc => doc.blocks.flatMap (extractFromBlock doc.id))

/-- The card-selection step of `handleStartStudy` (App.tsx lines
292-297): when a non-empty list of specific card ids is supplied, the
extracted cards are filtered to those whose id is in the list. -/
def selectStudyCards (docs : List Document) (specificCardIds : List String) :
    List Flashcard :=
  let cards := extractCards docs
  if 0 < specificCardIds.length then
    cards.filter (fun c => specificCardIds.contains c.id)
  else cards

/-! ### Card table derivation (CardTable.tableData) -/

/-- One row of the card table. -/
structure TableRow where
  id : String
  blockId : String
  ancestors : List String
  front : String
  back : String
  type : String
  lapses : Nat
  disabled : Bool
  repetitions : Nat
deriving DecidableEq, Repr

/-- The backward scan of the ancestor-resolution loop.  The first
argument of the recursion is the number of positions still to examine:
`ancestorsAux blocks (k+1) lvl` examines block `k`, then continues
at `k`.  A block whose level is strictly below the tracked level is
selected, the tracked level becomes that level, and the scan stops
once a level-0 block has been selected. -/
def ancestorsAux (blocks : List Block) : Nat → Nat → List String
  | 0, _ => []
  | k + 1, currentLevel =>
    match blocks[k]? with
    | none => ancestorsAux blocks k currentLevel
    | some b =>
      if b.level < currentLevel then
        if b.level = 0 then [b.content]
        else ancestorsAux blocks k b.level ++ [b.content]
      else ancestorsAux blocks k currentLevel

/-- Ancestor resolution for the block at `index`: scan indices
`index-1 .. 0`, prepending each strictly-shallower block's content,
root first (the inline loop of `CardTable.tableData`). -/
def ancestorsOf (blocks : List Block) (index : Nat) : List String :=
  match blocks[index]? with
  | none => []
  | some b => ancestorsAux blocks index b.level

/-- Rows emitted by `CardTable.tableData` for the block at `index`.
A `::` content with both trimmed sides non-empty emits the forward and
backward rows (ids `blockId-fwd`, `blockId-bwd`, both bidirectional);
a `;;` content with both trimmed sides non-empty emits one forward
row; a cloze span emits one cloze row with id `blockId-cloze`. -/
def rowsForBlock (blocks : List Block) (index : Nat) (b : Block) : List TableRow :=
  let ancestors := ancestorsOf blocks index
  let lapses := (b.srsData.bind SrsData.lapses).getD 0
  let disabled := (b.srsData.bind SrsData.disabled).getD false
  let repetitions := (b.srsData.map SrsData.repetitions).getD 0
  if jsIncludes ':' ':' b.content then
    match (jsSplitOn ':' ':' b.content).map jsTrim with
    | front :: back :: _ =>
      if front ≠ "" ∧ back ≠ "" then
        [{ id := b.id ++ "-fwd", blockId := b.id, ancestors := ancestors,
           front := front, back := back, type := "bidirectional",
           lapses := lapses, disabled := disabled, repetitions := repetitions },
         { id := b.id ++ "-bwd", blockId := b.id, ancestors := ancestors,
           front := back, back := front, type := "bidirectional",
           lapses := lapses, disabled := disabled, repetitions := repetitions }]
      else []
    | _ => []
  else if jsIncludes ';' ';' b.content then
    match (jsSplitOn ';' ';' b.content).map jsTrim with
    | front :: back :: _ =>
      if front ≠ "" ∧ back ≠ "" then
        [{ id := b.id ++ "-fwd", blockId := b.id, ancestors := ancestors,
           front := front, back := back, type := "forward",
           lapses := lapses, disabled := disabled, repetitions := repetitions }]
      else []
    | _ => []
  else if hasClozeSpan b.content.data then
    [{ id := b.id ++ "-cloze", blockId := b.id, ancestors := ancestors,
       front := b.content, back := "...", type := "cloze",
       lapses := lapses, disabled := disabled, repetitions := repetitions }]
  else []

/-- `CardTable.tableData`: rows for every block in order. -/
def tableData (blocks : List Block) : List TableRow :=
  blocks.enum.flatMap (fun p => rowsForBlock blocks p.1 p.2)

/-- The filtered practice action of the card table
(`handlePracticeFiltered`): the ids of the displayed rows are passed
as specific card ids to the study starter. -/
def practiceFilteredIds (blocks : List Block) : List String :=
  (tableData blocks).map TableRow.id

/-! ### Classification predicates (CardTable.counts / getFilteredData) -/

/-- Leech tab predicate: `lapses >= leechThreshold && !disabled`. -/
def isLeechRow (leechThreshold : Nat) (r : TableRow) : Bool :=
  leechThreshold ≤ r.lapses && !r.disabled

/-- Struggling tab predicate: `lapses > 0 && lapses < leechThreshold && !disabled`. -/
def isStrugglingRow (leechThreshold : Nat) (r : TableRow) : Bool :=
  0 < r.lapses && r.lapses < leechThreshold && !r.disabled

/-- Disabled tab predicate. -/
def isDisabledRow (r : TableRow) : Bool := r.disabled

/-- New tab predicate: `repetitions === 0 && !disabled`. -/
def isNewRow (r : TableRow) : Bool := r.repetitions == 0 && !r.disabled

/-- Enabled tab predicate: `!disabled`. -/
def isEnabledRow (r : TableRow) : Bool := !r.disabled

/-! ### Ratings and the SRS record update (handleUpdateCardProgress) -/

/-- The union of the two rating enumerations: `StudyRating`
(Again, Hard, Good, Easy) and `OrderRating` (2s, 15m, 30m, 1h). -/
inductive Rating where
  | again | hard | good | easy
  | twoSec | fifteenMin | thirtyMin | oneHour
deriving DecidableEq, Repr

/-- The fail test of `handleUpdateCardProgress` and `handleRate`:
`rating === StudyRating.AGAIN || rating === OrderRating.TWO_SEC`. -/
def Rating.isFail : Rating → Bool
  | .again => true
  | .twoSec => true
  | _ => false

/-- The record rewrite performed by `handleUpdateCardProgress` on the
rated block's record: a fail rating increments lapses and zeroes
repetitions, any other rating increments repetitions; either way the
current time is written into `lastReview` and the (defaulted) lapses
value is written back. -/
def updateSrsForRating (srs : SrsData) (rating : Rating) (now : Nat) : SrsData :=
  let newLapses := srs.lapses.getD 0
  if rating.isFail then
    { srs with repetitions := 0, lapses := some (newLapses + 1),
               lastReview := some now }
  else
    { srs with repetitions := srs.repetitions + 1, lapses := some newLapses,
               lastReview := some now }

/-- `handleUpdateCardProgress` (App.tsx lines 321-344): map over the
documents, leaving every document other than the card's untouched, and
inside the card's document leave every block other than the card's
untouched; the card's block gets the rewritten record. -/
def handleUpdateCardProgress (docs : List Document) (card : Flashcard)
    (rating : Rating) (now : Nat) : List Document :=
  docs.map fun doc =>
    if doc.id ≠ card.docId then doc
    else
      { doc with blocks := doc.blocks.map fun b =>
          if b.id ≠ card.blockId then b
          else { b with
                   srsData := some (updateSrsForRating
                     (b.srsData.getD srsDefault) rating now) } }

/-! ### Study-session state machine (StudySession)

The component state relevant to the queue engine: the immutable
original queue, the live queue, the current index (mirrored into
`currentIndexRef`, which later timer firings read), the missed-card
ids of the swipe mode, and the queue of scheduled-but-unfired
fail-rating requeue timers, each carrying the card copy captured at
schedule time.  `handleRate` pushes a timer and nothing in the
component ever stores or clears its handle, so no operation removes a
pending entry except its own firing. -/
structure SessionState where
  originalQueue : List Flashcard
  queue : List Flashcard
  currentIndex : Nat
  missedCards : List String
  pendingRequeues : List Flashcard
deriving DecidableEq, Repr

/-- A fresh session as mounted with `cards`: queue and snapshot both
equal to the incoming cards, index 0, nothing missed, no timers. -/
def initSession (cards : List Flashcard) : SessionState :=
  { originalQueue := cards, queue := cards, currentIndex := 0,
    missedCards := [], pendingRequeues := [] }

/-- A session mid-run: the queue still equals the snapshot, the
position has advanced to `p`, no timer is pending. -/
def sessionAt (cards : List Flashcard) (p : Nat) : SessionState :=
  { originalQueue := cards, queue := cards, currentIndex := p,
    missedCards := [], pendingRequeues := [] }

/-- The queue updater run when a fail-rating requeue timer fires
(the body of the `setTimeout` in `handleRate`): read the current
position; if it is past the end, append; otherwise splice the card in
immediately after the current position when the position is within
bounds, or at the position itself when it equals the length. -/
def requeueUpdate (q : List Flashcard) (pos : Nat) (c : Flashcard) :
    List Flashcard :=
  if q.length < pos then q ++ [c]
  else
    let insertIndex := if pos < q.length then pos + 1 else pos
    q.take insertIndex ++ c :: q.drop insertIndex

/-- `handleRate`: a no-op when there is no current card; otherwise the
record callback fires (modelled separately by
`handleUpdateCardProgress`), the index advances by one, and a fail
rating additionally schedules a requeue timer carrying a copy of the
rated card. -/
def handleRate (s : SessionState) (rating : Rating) : SessionState :=
  match s.queue[s.currentIndex]? with
  | none => s
  | some card =>
    if rating.isFail then
      { s with currentIndex := s.currentIndex + 1,
               pendingRequeues := s.pendingRequeues ++ [card] }
    else
      { s with currentIndex := s.currentIndex + 1 }

/-- The earliest scheduled requeue timer fires: its card is spliced
into the queue using the position read at fire time. -/
def fireRequeue (s : SessionState) : SessionState :=
  match s.pendingRequeues with
  | [] => s
  | c :: rest =>
    { s with queue := requeueUpdate s.queue s.currentIndex c,
             pendingRequeues := rest }

/-- The Restart Session button of the non-swipe completion screen:
`setCurrentIndex(0)` and nothing else.  In particular the queue keeps
any requeued copies and pending timers stay scheduled. -/
def restartButton (s : SessionState) : SessionState :=
  { s with currentIndex := 0 }

/-- `handleRestartAll` of the swipe (flashcards) mode: queue back to
the original snapshot, missed set emptied, index 0.  Pending timers
are not cancelled (the component stores no handle for them). -/
def handleRestartAll (s : SessionState) : SessionState :=
  { s with queue := s.originalQueue, missedCards := [], currentIndex := 0 }

/-- `handleRestartMissed` of the swipe mode: the queue becomes the
original-order subsequence of missed cards, the missed set is emptied
and the index reset. -/
def handleRestartMissed (s : SessionState) : SessionState :=
  { s with queue := s.originalQueue.filter
             (fun c => s.missedCards.contains c.id),
           missedCards := [], currentIndex := 0 }

/-- `handleCardAction` of the swipe mode: a no-op without a current
card; a left swipe records the current card id as missed; either
direction advances the index. -/
def handleCardAction (s : SessionState) (left : Bool) : SessionState :=
  match s.queue[s.currentIndex]? with
  | none => s
  | some card =>
    if left then
      { s with missedCards := s.missedCards ++ [card.id],
               currentIndex := s.currentIndex + 1 }
    else
      { s with currentIndex := s.currentIndex + 1 }

/-! ### Study-context ancestor path (StudySession.getContextPath) -/

/-- JavaScript `a || b` on strings: the fallback is used when the
first string is empty. -/
def jsOrString (a b : String) : String := if a = "" then b else a

/-- The backward parent scan of `getContextPath`; identical to the
card-table scan except that each selected content is trimmed. -/
def contextParentsAux (blocks : List Block) : Nat → Nat → List String
  | 0, _ => []
  | k + 1, currentLevel =>
    match blocks[k]? with
    | none => contextParentsAux blocks k currentLevel
    | some b =>
      if b.level < currentLevel then
        if b.level = 0 then [jsTrim b.content]
        else contextParentsAux blocks k b.level ++ [jsTrim b.content]
      else contextParentsAux blocks k currentLevel

/-- `getContextPath` of the study session: when context display is on,
the card's document title followed by the trimmed ancestor contents of
the card's block. -/
def getContextPath (docs : List Document) (showContext : Bool)
    (card : Flashcard) : List String :=
  if !showContext then []
  else
    match docs.find? (fun d => d.id = card.docId) with
    | none => []
    | some doc =>
      let blockIndex := doc.blocks.findIdx (fun b => b.id = card.blockId)
      match doc.blocks[blockIndex]? with
      | none => [jsOrString doc.title "Untitled"]
      | some currentBlock =>
        jsOrString doc.title "Untitled"
          :: contextParentsAux doc.blocks blockIndex currentBlock.level

end MemNote


namespace MemNote

/-! ### Concrete sample data for witnesses and counterexamples -/

/-- An explicit SRS record with integral numeric fields. -/
def sampleSrs : SrsData :=
  { nextReview := 7, interval := 1, easeFactor := 3, repetitions := 2,
    lapses := some 1, disabled := some false, lastReview := none }

/-- A block whose content carries the two-way delimiter with both
sides non-empty after trimming. -/
def bidiBlock : Block :=
  { id := "b1", content := "a :: b", level := 0, srsData := some sampleSrs }

/-- A one-block document around `bidiBlock`. -/
def bidiDoc : Document :=
  { id := "d1", folderId := none, title := "D1", blocks := [bidiBlock],
    lastModified := 0 }

/-- A block whose content starts with the delimiter, so the substring
before it is empty after trimming. -/
def emptyFrontBlock : Block :=
  { id := "b4", content := "::b", level := 0, srsData := some sampleSrs }

/-- A one-block document around `emptyFrontBlock`. -/
def emptyFrontDoc : Document :=
  { id := "d4", folderId := none, title := "D4", blocks := [emptyFrontBlock],
    lastModified := 0 }

/-- A block whose content contains the delimiter twice. -/
def tripleBlock : Block :=
  { id := "b10", content := "a::b::c", level := 0, srsData := some sampleSrs }

/-- A plain outline block with content `tᵢ` at the given level. -/
def outlineBlock (i lvl : Nat) : Block :=
  { id := "x" ++ toString i, content := "t" ++ toString i, level := lvl,
    srsData := none }

/-- The outline of spec property 5: levels 0, 1, 1, 2, 0, 1. -/
def outlineBlocks : List Block :=
  [outlineBlock 0 0, outlineBlock 1 1, outlineBlock 2 1,
   outlineBlock 3 2, outlineBlock 4 0, outlineBlock 5 1]

/-- A document holding the sample outline. -/
def outlineDoc : Document :=
  { id := "d9", folderId := none, title := "D", blocks := outlineBlocks,
    lastModified := 0 }

/-- A study card with the given id and otherwise fixed fields. -/
def mkStudyCard (n : String) : Flashcard :=
  { id := n, front := n, back := n, blockId := n, docId := "d",
    cardType := "forward", status := "new", nextReview := 0, interval := 0,
    easeFactor := 3, repetitions := 0, lapses := some 0,
    disabled := some false }

/-- First sample card. -/
def cardA : Flashcard := mkStudyCard "A"

/-- Second sample card. -/
def cardB : Flashcard := mkStudyCard "B"

/-- Third sample card. -/
def cardC : Flashcard := mkStudyCard "C"

/-- Fourth sample card. -/
def cardD : Flashcard := mkStudyCard "D"

/-- A card pointing at the block of `outlineDoc` with levels-skipping
ancestry (index 3, level 2). -/
def outlineCard : Flashcard :=
  { mkStudyCard "q" with docId := "d9", blockId := "x3" }

/-- A card addressing `bidiBlock` inside `bidiDoc`, as the rating
handler would receive it. -/
def ratedCard : Flashcard :=
  { mkStudyCard "r" with docId := "d1", blockId := "b1" }

/-! ### Helper lemmas -/

/-- Two character lists that agree in length after an aligned position
holding distinct characters are different, whatever stands before. -/
theorem append_cons_ne {l₁ l₂ : List Char} {c d : Char} {s t : List Char}
    (hcd : c ≠ d) (hst : s.length = t.length) :
    l₁ ++ c :: s ≠ l₂ ++ d :: t := by
  intro h
  have hlen := congrArg List.length h
  simp only [List.length_append, List.length_cons] at hlen
  have h₂ := List.append_inj h (by omega)
  injection h₂.2 with h₃ _
  exact hcd h₃

/-- No string followed by a card-table id suffix equals a string
followed by a study-extractor id suffix: the table suffixes start with
a dash where the study suffixes start with an underscore, and the
mixed-length pairs already differ in their final character. -/
theorem table_suffix_ne_study_suffix (x y : String) {u v : String}
    (hu : u = "-fwd" ∨ u = "-bwd" ∨ u = "-cloze")
    (hv : v = "_fwd" ∨ v = "_cloze") :
    x ++ u ≠ y ++ v := by
  intro h
  have hd := congrArg String.data h
  rw [String.data_append, String.data_append] at hd
  rcases hu with hu | hu | hu <;> rcases hv with hv | hv <;> subst hu <;> subst hv
  · exact append_cons_ne (s := ['f', 'w', 'd']) (t := ['f', 'w', 'd'])
      (show ('-' : Char) ≠ '_' by decide) rfl hd
  · rw [show ("-fwd" : String).data = ['-', 'f', 'w'] ++ 'd' :: [] from rfl,
        show ("_cloze" : String).data = ['_', 'c', 'l', 'o', 'z'] ++ 'e' :: [] from rfl,
        ← List.append_assoc, ← List.append_assoc] at hd
    exact append_cons_ne (by decide) (by decide) hd
  · rw [show ("-bwd" : String).data = ['-'] ++ 'b' :: ['w', 'd'] from rfl,
        show ("_fwd" : String).data = ['_'] ++ 'f' :: ['w', 'd'] from rfl,
        ← List.append_assoc, ← List.append_assoc] at hd
    exact append_cons_ne (by decide) (by decide) hd
  · rw [show ("-bwd" : String).data = ['-', 'b', 'w'] ++ 'd' :: [] from rfl,
        show ("_cloze" : String).data = ['_', 'c', 'l', 'o', 'z'] ++ 'e' :: [] from rfl,
        ← List.append_assoc, ← List.append_assoc] at hd
    exact append_cons_ne (by decide) (by decide) hd
  · rw [show ("-cloze" : String).data = ['-', 'c', 'l', 'o', 'z'] ++ 'e' :: [] from rfl,
        show ("_fwd" : String).data = ['_', 'f', 'w'] ++ 'd' :: [] from rfl,
        ← List.append_assoc, ← List.append_assoc] at hd
    exact append_cons_ne (by decide) (by decide) hd
  · exact append_cons_ne (s := ['c', 'l', 'o', 'z', 'e'])
      (t := ['c', 'l', 'o', 'z', 'e'])
      (show ('-' : Char) ≠ '_' by decide) rfl hd

end MemNote

namespace MemNote

/-- Every row the card table derives from a block has an id of the
form `blockId-fwd`, `blockId-bwd` or `blockId-cloze`. -/
theorem rowsForBlock_id_shape (blocks : List Block) (i : Nat) (b : Block) :
    ∀ r ∈ rowsForBlock blocks i b,
      r.id = b.id ++ "-fwd" ∨ r.id = b.id ++ "-bwd" ∨ r.id = b.id ++ "-cloze" := by
  intro r hr
  simp only [rowsForBlock] at hr
  split at hr
  · split at hr
    · split at hr
      · rcases List.mem_cons.mp hr with h | h
        · subst h; exact Or.inl rfl
        · rcases List.mem_cons.mp h with h | h
          · subst h; exact Or.inr (Or.inl rfl)
          · exact absurd h (List.not_mem_nil r)
      · exact absurd hr (List.not_mem_nil r)
    · exact absurd hr (List.not_mem_nil r)
  · split at hr
    · split at hr
      · split at hr
        · rcases List.mem_cons.mp hr with h | h
          · subst h; exact Or.inl rfl
          · exact absurd h (List.not_mem_nil r)
        · exact absurd hr (List.not_mem_nil r)
      · exact absurd hr (List.not_mem_nil r)
    · split at hr
      · rcases List.mem_cons.mp hr with h | h
        · subst h; exact Or.inr (Or.inr rfl)
        · exact absurd h (List.not_mem_nil r)
      · exact absurd hr (List.not_mem_nil r)

/-- Every card the study extractor derives from a block has an id of
the form `blockId_fwd` or `blockId_cloze`. -/
theorem extractFromBlock_id_shape (docId : String) (b : Block) :
    ∀ c ∈ extractFromBlock docId b,
      c.id = b.id ++ "_fwd" ∨ c.id = b.id ++ "_cloze" := by
  intro c hc
  simp only [extractFromBlock] at hc
  split at hc
  · exact absurd hc (List.not_mem_nil c)
  · split at hc
    · split at hc
      · rcases List.mem_cons.mp hc with h | h
        · subst h; exact Or.inl rfl
        · exact absurd h (List.not_mem_nil c)
      · exact absurd hc (List.not_mem_nil c)
    · split at hc
      · split at hc
        · rcases List.mem_cons.mp hc with h | h
          · subst h; exact Or.inl rfl
          · exact absurd h (List.not_mem_nil c)
        · exact absurd hc (List.not_mem_nil c)
      · split at hc
        · rcases List.mem_cons.mp hc with h | h
          · subst h; exact Or.inr rfl
          · exact absurd h (List.not_mem_nil c)
        · exact absurd hc (List.not_mem_nil c)

/-- Any id appearing in the card table is some block id followed by a
table suffix. -/
theorem tableData_id_mem (blocks : List Block) {id : String}
    (h : id ∈ (tableData blocks).map TableRow.id) :
    ∃ x, id = x ++ "-fwd" ∨ id = x ++ "-bwd" ∨ id = x ++ "-cloze" := by
  rcases List.mem_map.mp h with ⟨r, hr, hid⟩
  rcases List.mem_flatMap.mp hr with ⟨p, _, hrp⟩
  refine ⟨p.2.id, ?_⟩
  rw [← hid]
  exact rowsForBlock_id_shape blocks p.1 p.2 r hrp

/-- Any id of an extracted study card is some block id followed by a
study suffix. -/
theorem extractCards_id_shape (docs : List Document) {c : Flashcard}
    (h : c ∈ extractCards docs) :
    ∃ x, c.id = x ++ "_fwd" ∨ c.id = x ++ "_cloze" := by
  rcases List.mem_flatMap.mp h with ⟨doc, _, hc⟩
  rcases List.mem_flatMap.mp hc with ⟨b, _, hcb⟩
  exact ⟨b.id, extractFromBlock_id_shape doc.id b c hcb⟩

/-- Claim C5: the card-table derivation builds ids with the suffixes
-fwd, -bwd, -cloze while the study extractor builds ids with the
suffixes _fwd, _cloze, so the two id sets are disjoint for every
block; consequently, starting a study session with any non-empty list
of card-table ids as specific card ids filters the extracted card set
down to the empty set. -/
theorem c5_table_ids_disjoint_from_study_ids
    (blocks : List Block) (docs : List Document) (ids : List String)
    (hids : ∀ id ∈ ids, id ∈ (tableData blocks).map TableRow.id)
    (hne : ids ≠ []) :
    (∀ c ∈ extractCards docs, c.id ∉ ids)
    ∧ selectStudyCards docs ids = [] := by
  have key : ∀ c ∈ extractCards docs, c.id ∉ ids := by
    intro c hc hmem
    rcases extractCards_id_shape docs hc with ⟨x, hx⟩
    rcases tableData_id_mem blocks (hids _ hmem) with ⟨y, hy⟩
    rcases hy with hy | hy | hy <;> rcases hx with hx | hx <;>
      exact table_suffix_ne_study_suffix y x
        (by first
            | exact Or.inl rfl
            | exact Or.inr (Or.inl rfl)
            | exact Or.inr (Or.inr rfl))
        (by first | exact Or.inl rfl | exact Or.inr rfl)
        (hy.symm.trans hx)
  refine ⟨key, ?_⟩
  have hlen : 0 < ids.length := List.length_pos.mpr hne
  simp only [selectStudyCards, if_pos hlen]
  rw [List.filter_eq_nil_iff]
  intro c hc hcontains
  exact key c hc (by simpa using hcontains)

/-- Witness for claim C5 at the sample two-way block: both table ids
of the block are passed back as specific ids and the extractor's
output filters to nothing. -/
theorem c5_table_ids_disjoint_from_study_ids_witness :
    (∀ id ∈ (["b1-fwd", "b1-bwd"] : List String),
        id ∈ (tableData [bidiBlock]).map TableRow.id)
    ∧ (["b1-fwd", "b1-bwd"] : List String) ≠ []
    ∧ ((∀ c ∈ extractCards [bidiDoc], c.id ∉ (["b1-fwd", "b1-bwd"] : List String))
       ∧ selectStudyCards [bidiDoc] ["b1-fwd", "b1-bwd"] = []) :=
  ⟨by decide, by decide,
   c5_table_ids_disjoint_from_study_ids [bidiBlock] [bidiDoc]
     ["b1-fwd", "b1-bwd"] (by decide) (by decide)⟩

end MemNote

namespace MemNote

/-- Claim C1 (divergence of the code from its own documentation): for
the block whose content is a :: b (both sides non-empty after
trimming), the study extractor extractCards emits exactly one card,
of type forward, front a, back b, id b1_fwd — not the claimed
bidirectional pair — while the card-table derivation of the very same
block emits the two bidirectional rows b1-fwd and b1-bwd. -/
theorem c1_extractCards_single_forward_card :
    extractCards [bidiDoc]
      = [{ id := "b1_fwd", front := "a", back := "b", blockId := "b1",
           docId := "d1", cardType := "forward", status := "review",
           nextReview := 7, interval := 1, easeFactor := 3,
           repetitions := 2, lapses := some 1, disabled := some false }]
    ∧ (tableData [bidiBlock]).map (fun r => (r.id, r.front, r.back, r.type))
      = [("b1-fwd", "a", "b", "bidirectional"),
         ("b1-bwd", "b", "a", "bidirectional")] := by decide

/-- Claim C2 counterexample: in the three-card queue A B C, rating the
card at position 0 with the fail rating and letting the delay fire
with no other ratings reinserts the copy at queue index 2 (immediately
after the advanced position 1), not at index p+1 = 1 as the claim
states. -/
theorem c2_requeue_lands_at_index_two_not_one :
    (fireRequeue (handleRate (initSession [cardA, cardB, cardC])
        Rating.again)).queue = [cardA, cardB, cardA, cardC]
    ∧ (fireRequeue (handleRate (initSession [cardA, cardB, cardC])
        Rating.again)).queue[1]? ≠ some cardA
    ∧ (fireRequeue (handleRate (initSession [cardA, cardB, cardC])
        Rating.again)).queue[2]? = some cardA := by decide

/-- Claim C3 (evaluation at the failing trace): rating the only card
of a session with the fail rating schedules a requeue timer;
restarting the session does not cancel it (the component never stores
the timer handle), and when the stale timer then fires it mutates the
restarted queue by splicing in the card copy — the late firing is not
a no-op. -/
theorem c3_stale_requeue_timer_mutates_restarted_queue :
    (restartButton (handleRate (initSession [cardA])
        Rating.again)).pendingRequeues = [cardA]
    ∧ (fireRequeue (restartButton (handleRate (initSession [cardA])
        Rating.again))).queue = [cardA, cardA]
    ∧ (fireRequeue (restartButton (handleRate (initSession [cardA])
        Rating.again))).queue
      ≠ (restartButton (handleRate (initSession [cardA])
        Rating.again)).queue := by decide

/-- Claim C4 counterexample: for the block whose content is ::b (the
side before the delimiter is empty after trimming) the study extractor
does emit a card — with empty front — rather than emitting nothing. -/
theorem c4_extractCards_emits_on_empty_side :
    extractCards [emptyFrontDoc]
      = [{ id := "b4_fwd", front := "", back := "b", blockId := "b4",
           docId := "d4", cardType := "forward", status := "review",
           nextReview := 7, interval := 1, easeFactor := 3,
           repetitions := 2, lapses := some 1, disabled := some false }] := by
  decide

/-- Claim C6 counterexample: after a fail rating, the fired requeue
and a closing non-fail rating, the completion-screen restart of the
rating-aware session resets only the position; the queue keeps the
requeued copy and so differs from the original snapshot. -/
theorem c6_restart_keeps_requeued_copies :
    (restartButton (handleRate (fireRequeue (handleRate
        (initSession [cardA]) Rating.again)) Rating.good)).currentIndex = 0
    ∧ (restartButton (handleRate (fireRequeue (handleRate
        (initSession [cardA]) Rating.again)) Rating.good)).originalQueue
      = [cardA]
    ∧ (restartButton (handleRate (fireRequeue (handleRate
        (initSession [cardA]) Rating.again)) Rating.good)).queue
      = [cardA, cardA]
    ∧ (restartButton (handleRate (fireRequeue (handleRate
        (initSession [cardA]) Rating.again)) Rating.good)).queue
      ≠ (restartButton (handleRate (fireRequeue (handleRate
        (initSession [cardA]) Rating.again)) Rating.good)).originalQueue := by
  decide

/-- Claim C9: on the outline with levels 0 1 1 2 0 1 the ancestor
resolution returns the root-first path: the ancestors of index 2 are
the content of index 0 and the ancestors of index 3 are the contents
of indices 0 and 2; the study session's context path prepends the
document title to the same scan. -/
theorem c9_ancestor_resolution_example :
    ancestorsOf outlineBlocks 2 = ["t0"]
    ∧ ancestorsOf outlineBlocks 3 = ["t0", "t2"]
    ∧ getContextPath [outlineDoc] true outlineCard = ["D", "t0", "t2"] := by
  decide

end MemNote

namespace MemNote

/-- When the position read at fire time is within queue bounds, the
requeue updater splices the card in immediately after it. -/
theorem requeueUpdate_within (q : List Flashcard) (c : Flashcard) {pos : Nat}
    (h : pos < q.length) :
    requeueUpdate q pos c = q.take (pos + 1) ++ c :: q.drop (pos + 1) := by
  simp only [requeueUpdate, if_neg (by omega : ¬q.length < pos), if_pos h]

/-- When the position read at fire time is at or past the queue
length, the requeue updater appends the card at the end. -/
theorem requeueUpdate_at_end (q : List Flashcard) (c : Flashcard) {pos : Nat}
    (h : q.length ≤ pos) :
    requeueUpdate q pos c = q ++ [c] := by
  by_cases h₂ : q.length < pos
  · simp only [requeueUpdate, if_pos h₂]
  · have he : pos = q.length := by omega
    subst he
    simp only [requeueUpdate, if_neg (by omega : ¬q.length < q.length),
               if_neg (lt_irrefl q.length), List.take_length, List.drop_length]

/-- Inserting within bounds puts the card at index `pos + 1`. -/
theorem requeueUpdate_getElem_within (q : List Flashcard) (c : Flashcard)
    {pos : Nat} (h : pos < q.length) :
    (requeueUpdate q pos c)[pos + 1]? = some c := by
  rw [requeueUpdate_within q c h]
  have hl : (q.take (pos + 1)).length = pos + 1 := by
    rw [List.length_take]; omega
  rw [List.getElem?_append_right (by omega), hl]
  simp

/-- The requeue updater always grows the queue by one card. -/
theorem requeueUpdate_length (q : List Flashcard) (c : Flashcard) (pos : Nat) :
    (requeueUpdate q pos c).length = q.length + 1 := by
  by_cases h : pos < q.length
  · rw [requeueUpdate_within q c h]
    simp only [List.length_append, List.length_take, List.length_cons,
               List.length_drop]
    omega
  · rw [requeueUpdate_at_end q c (by omega)]
    simp

end MemNote

namespace MemNote

/-- Claim C2 as amended: rating the card at position p with the fail
rating immediately advances the position to p+1, leaves the queue
untouched and schedules one requeue timer carrying the card; the
reinsertion index is computed from the position read when the timer
fires — within bounds the copy is spliced in immediately after that
position, otherwise appended — so with no other ratings the failed
card reappears at index p+2 when p+1 is still within the queue (at
the end when p was the last card), and after an intervening fail
rating moving the position to p+2 the copy lands at index p+3. -/
theorem c2_requeue_fires_at_live_position
    (q : List Flashcard) (p : Nat) (c : Flashcard) (hp : q[p]? = some c) :
    (handleRate (sessionAt q p) Rating.again).currentIndex = p + 1
    ∧ (handleRate (sessionAt q p) Rating.again).queue = q
    ∧ (handleRate (sessionAt q p) Rating.again).pendingRequeues = [c]
    ∧ (p + 1 < q.length →
        (fireRequeue (handleRate (sessionAt q p) Rating.again)).queue[p + 2]?
          = some c
        ∧ (fireRequeue (handleRate (sessionAt q p) Rating.again)).queue.length
          = q.length + 1)
    ∧ (p + 1 = q.length →
        (fireRequeue (handleRate (sessionAt q p) Rating.again)).queue
          = q ++ [c])
    ∧ (∀ c₂, q[p + 1]? = some c₂ →
        (handleRate (handleRate (sessionAt q p) Rating.again)
            Rating.again).currentIndex = p + 2
        ∧ (p + 2 < q.length →
            (fireRequeue (handleRate (handleRate (sessionAt q p) Rating.again)
                Rating.again)).queue[p + 3]? = some c))
    ∧ (∀ s : SessionState, ∀ c' rest, s.pendingRequeues = c' :: rest →
        (fireRequeue s).queue
          = if s.currentIndex < s.queue.length
            then s.queue.take (s.currentIndex + 1)
                   ++ c' :: s.queue.drop (s.currentIndex + 1)
            else s.queue ++ [c']) := by
  have h1 : handleRate (sessionAt q p) Rating.again
      = { originalQueue := q, queue := q, currentIndex := p + 1,
          missedCards := [], pendingRequeues := [c] } := by
    simp [handleRate, sessionAt, hp, Rating.isFail]
  refine ⟨by rw [h1], by rw [h1], by rw [h1], ?_, ?_, ?_, ?_⟩
  · intro hlt
    rw [h1]
    exact ⟨requeueUpdate_getElem_within q c hlt, requeueUpdate_length q c (p + 1)⟩
  · intro heq
    rw [h1]
    show requeueUpdate q (p + 1) c = q ++ [c]
    exact requeueUpdate_at_end q c (by omega)
  · intro c₂ hc₂
    have h2 : handleRate
        ({ originalQueue := q, queue := q, currentIndex := p + 1,
           missedCards := [], pendingRequeues := [c] } : SessionState)
        Rating.again
        = { originalQueue := q, queue := q, currentIndex := p + 2,
            missedCards := [], pendingRequeues := [c, c₂] } := by
      simp [handleRate, hc₂, Rating.isFail]
    rw [h1, h2]
    exact ⟨rfl, fun hlt => requeueUpdate_getElem_within q c hlt⟩
  · intro s c' rest hs
    by_cases hlt : s.currentIndex < s.queue.length
    · rw [if_pos hlt]
      simp only [fireRequeue, hs]
      exact requeueUpdate_within s.queue c' hlt
    · rw [if_neg hlt]
      simp only [fireRequeue, hs]
      exact requeueUpdate_at_end s.queue c' (by omega)

/-- Witness for claim C2 on the four-card queue A B C D at position 0:
the failed card's copy lands at index 2 after the no-intervening fire,
and at index 3 when an intervening fail rating moved the position
first. -/
theorem c2_requeue_fires_at_live_position_witness :
    ([cardA, cardB, cardC, cardD][0]? = some cardA)
    ∧ (fireRequeue (handleRate (sessionAt [cardA, cardB, cardC, cardD] 0)
        Rating.again)).queue[2]? = some cardA
    ∧ (fireRequeue (handleRate (handleRate
        (sessionAt [cardA, cardB, cardC, cardD] 0) Rating.again)
        Rating.again)).queue[3]? = some cardA :=
  ⟨by decide,
   ((c2_requeue_fires_at_live_position [cardA, cardB, cardC, cardD] 0 cardA
      (by decide)).2.2.2.1 (by decide)).1,
   ((c2_requeue_fires_at_live_position [cardA, cardB, cardC, cardD] 0 cardA
      (by decide)).2.2.2.2.2.1 cardB (by decide)).2 (by decide)⟩

end MemNote

namespace MemNote

/-- Claim C6 as amended: the swipe session's restartAll does reset the
queue to the original snapshot, empty the missed set and zero the
position, but the rating-aware completion-screen restart resets only
the position — queue, snapshot, missed set and the pending timers are
all left as they were, so a queue grown by a fired fail-rating requeue
keeps its extra copy across the restart. -/
theorem c6_restart_resets_position_only
    (s : SessionState) (q : List Flashcard) (p : Nat) (c : Flashcard)
    (hp : q[p]? = some c) :
    (restartButton s).currentIndex = 0
    ∧ (restartButton s).queue = s.queue
    ∧ (restartButton s).originalQueue = s.originalQueue
    ∧ (restartButton s).missedCards = s.missedCards
    ∧ (restartButton s).pendingRequeues = s.pendingRequeues
    ∧ (handleRestartAll s).queue = s.originalQueue
    ∧ (handleRestartAll s).missedCards = []
    ∧ (handleRestartAll s).currentIndex = 0
    ∧ (restartButton (fireRequeue (handleRate (sessionAt q p)
        Rating.again))).queue.length = q.length + 1 := by
  refine ⟨rfl, rfl, rfl, rfl, rfl, rfl, rfl, rfl, ?_⟩
  have h1 : handleRate (sessionAt q p) Rating.again
      = { originalQueue := q, queue := q, currentIndex := p + 1,
          missedCards := [], pendingRequeues := [c] } := by
    simp [handleRate, sessionAt, hp, Rating.isFail]
  rw [h1]
  show (requeueUpdate q (p + 1) c).length = q.length + 1
  exact requeueUpdate_length q c (p + 1)

/-- Witness for claim C6 on the singleton queue A: a fail rating,
the fired requeue and the restart leave a two-card queue at position
0. -/
theorem c6_restart_resets_position_only_witness :
    ([cardA][0]? = some cardA)
    ∧ (restartButton (fireRequeue (handleRate (sessionAt [cardA] 0)
        Rating.again))).queue.length = 2
    ∧ (restartButton (initSession [cardA])).currentIndex = 0 :=
  ⟨by decide,
   (c6_restart_resets_position_only (initSession [cardA]) [cardA] 0 cardA
      (by decide)).2.2.2.2.2.2.2.2,
   (c6_restart_resets_position_only (initSession [cardA]) [cardA] 0 cardA
      (by decide)).1⟩

end MemNote

namespace MemNote

/-- Claim C4 as amended: when a block's content carries the two-way or
the forward delimiter but one of the first two split substrings is
empty after trimming, the card-table derivation silently emits no row
for the block; the study extractor, which never checks the trimmed
sides, still emits exactly one card for such a block whenever its
record is not disabled. -/
theorem c4_card_table_silent_on_empty_side
    (blocks : List Block) (i : Nat) (docId : String) (b : Block)
    (h : (∃ p₀ p₁ rest, jsIncludes ':' ':' b.content = true
            ∧ jsSplitOn ':' ':' b.content = p₀ :: p₁ :: rest
            ∧ (jsTrim p₀ = "" ∨ jsTrim p₁ = ""))
       ∨ (jsIncludes ':' ':' b.content = false
            ∧ ∃ p₀ p₁ rest, jsIncludes ';' ';' b.content = true
               ∧ jsSplitOn ';' ';' b.content = p₀ :: p₁ :: rest
               ∧ (jsTrim p₀ = "" ∨ jsTrim p₁ = ""))) :
    rowsForBlock blocks i b = []
    ∧ ((b.srsData.getD srsDefault).disabled.getD false = false →
        (extractFromBlock docId b).length = 1) := by
  rcases h with ⟨p₀, p₁, rest, hinc, hsplit, hemp⟩
    | ⟨hninc, p₀, p₁, rest, hinc, hsplit, hemp⟩
  · constructor
    · simp only [rowsForBlock, hinc, if_true]
      rw [hsplit]
      simp only [List.map_cons]
      rw [if_neg]
      rcases hemp with he | he <;> rw [he] <;> tauto
    · intro hdis
      simp only [extractFromBlock, hdis, Bool.false_eq_true, if_false, hinc,
                 if_true]
      rw [hsplit]
      rfl
  · constructor
    · simp only [rowsForBlock, hinc, hninc, Bool.false_eq_true, if_false,
                 if_true]
      rw [hsplit]
      simp only [List.map_cons]
      rw [if_neg]
      rcases hemp with he | he <;> rw [he] <;> tauto
    · intro hdis
      simp only [extractFromBlock, hdis, hninc, Bool.false_eq_true, if_false,
                 hinc, if_true]
      rw [hsplit]
      rfl

/-- Witness for claim C4 at the block whose content is ::b: the card
table emits nothing while the (enabled) study extractor emits one
card. -/
theorem c4_card_table_silent_on_empty_side_witness :
    (jsIncludes ':' ':' emptyFrontBlock.content = true
      ∧ jsSplitOn ':' ':' emptyFrontBlock.content = ["", "b"]
      ∧ jsTrim "" = "")
    ∧ rowsForBlock [emptyFrontBlock] 0 emptyFrontBlock = []
    ∧ ((emptyFrontBlock.srsData.getD srsDefault).disabled.getD false = false →
        (extractFromBlock "d4" emptyFrontBlock).length = 1) :=
  ⟨⟨by decide, by decide, by decide⟩,
   c4_card_table_silent_on_empty_side [emptyFrontBlock] 0 "d4" emptyFrontBlock
     (Or.inl ⟨"", "b", [], by decide, by decide, Or.inl (by decide)⟩)⟩

end MemNote


namespace MemNote

/-- Claim C10: when a block's content splits on the two-way delimiter
into three or more parts (two or more delimiter occurrences), every
card either derivation emits for that block draws its front and back
exclusively from the trimmed first two parts — the study extractor's
single card has front = trimmed first part and back = trimmed second
part, and each card-table row is either that orientation or its
bidirectional swap — so the text after the second delimiter is
discarded and never reprocessed into any card. -/
theorem c10_second_delimiter_discarded
    (blocks : List Block) (i : Nat) (docId : String) (b : Block)
    (p₀ p₁ p₂ : String) (rest : List String)
    (hinc : jsIncludes ':' ':' b.content = true)
    (hsplit : jsSplitOn ':' ':' b.content = p₀ :: p₁ :: p₂ :: rest) :
    (∀ c ∈ extractFromBlock docId b,
        c.front = jsTrim p₀ ∧ c.back = jsTrim p₁)
    ∧ (∀ r ∈ rowsForBlock blocks i b,
        (r.front = jsTrim p₀ ∧ r.back = jsTrim p₁)
        ∨ (r.front = jsTrim p₁ ∧ r.back = jsTrim p₀)) := by
  constructor
  · intro c hc
    simp only [extractFromBlock] at hc
    split at hc
    · exact absurd hc (List.not_mem_nil c)
    · rw [hsplit] at hc
      simp only [List.mem_singleton] at hc
      subst hc
      exact ⟨rfl, rfl⟩
  · intro r hr
    simp only [rowsForBlock] at hr
    rw [hsplit] at hr
    simp only [List.map_cons] at hr
    split at hr <;>
      first
      | exact absurd hr (List.not_mem_nil r)
      | (split at hr <;>
          first
          | exact absurd hr (List.not_mem_nil r)
          | (simp only [List.mem_cons, List.not_mem_nil, or_false] at hr
             rcases hr with hrr | hrr <;> subst hrr <;>
               first
               | exact Or.inl ⟨rfl, rfl⟩
               | exact Or.inr ⟨rfl, rfl⟩))

/-- Witness for claim C10 at the block whose content is a::b::c. -/
theorem c10_second_delimiter_discarded_witness :
    (jsIncludes ':' ':' tripleBlock.content = true
      ∧ jsSplitOn ':' ':' tripleBlock.content = ["a", "b", "c"])
    ∧ ((∀ c ∈ extractFromBlock "d10" tripleBlock,
          c.front = jsTrim "a" ∧ c.back = jsTrim "b")
       ∧ (∀ r ∈ rowsForBlock [tripleBlock] 0 tripleBlock,
          (r.front = jsTrim "a" ∧ r.back = jsTrim "b")
          ∨ (r.front = jsTrim "b" ∧ r.back = jsTrim "a"))) :=
  ⟨⟨by decide, by decide⟩,
   c10_second_delimiter_discarded [tripleBlock] 0 "d10" tripleBlock
     "a" "b" "c" [] (by decide) (by decide)⟩

end MemNote

namespace MemNote

/-- Claim C7 counterexample: rating the sample card writes a
lastReview timestamp into the block's record, so the updated record
differs from the old one in more than the repetitions and lapses
fields — overwriting only those two fields of the old record does not
reproduce it. -/
theorem c7_rating_stamps_lastReview :
    (handleUpdateCardProgress [bidiDoc] ratedCard Rating.good 99).map
        (fun d => d.blocks.map Block.srsData)
      = [[some ({ sampleSrs with repetitions := 3, lapses := some 1, lastReview := some 99 })]]
    ∧ ({ sampleSrs with repetitions := 3, lapses := some 1, lastReview := some 99 } : SrsData)
      ≠ { sampleSrs with repetitions := 3, lapses := some 1 } := by decide

/-- Claim C7 as amended: applying a rating rewrites only the
repetitions, lapses and lastReview fields of the rated card's block
record — a fail rating increments lapses and zeroes repetitions, any
other rating increments repetitions, lastReview is stamped with the
current time — with no interval or ease-factor arithmetic: interval,
easeFactor, nextReview and disabled are unchanged, every block other
than the rated card's is unchanged and every other document is
unchanged. -/
theorem c7_rating_frame
    (docs : List Document) (card : Flashcard) (rating : Rating) (now : Nat) :
    (∀ srs : SrsData,
        (updateSrsForRating srs rating now).interval = srs.interval
        ∧ (updateSrsForRating srs rating now).easeFactor = srs.easeFactor
        ∧ (updateSrsForRating srs rating now).nextReview = srs.nextReview
        ∧ (updateSrsForRating srs rating now).disabled = srs.disabled
        ∧ (updateSrsForRating srs rating now).lastReview = some now
        ∧ (rating.isFail = true →
            (updateSrsForRating srs rating now).lapses
              = some (srs.lapses.getD 0 + 1)
            ∧ (updateSrsForRating srs rating now).repetitions = 0)
        ∧ (rating.isFail = false →
            (updateSrsForRating srs rating now).lapses
              = some (srs.lapses.getD 0)
            ∧ (updateSrsForRating srs rating now).repetitions
              = srs.repetitions + 1))
    ∧ (∀ (i : Nat) (doc : Document), docs[i]? = some doc →
        ∃ doc' : Document,
          (handleUpdateCardProgress docs card rating now)[i]? = some doc'
          ∧ doc'.id = doc.id ∧ doc'.title = doc.title
          ∧ doc'.folderId = doc.folderId
          ∧ doc'.lastModified = doc.lastModified
          ∧ (doc.id ≠ card.docId → doc' = doc)
          ∧ ∀ (j : Nat) (b : Block), doc.blocks[j]? = some b →
              ∃ b' : Block, doc'.blocks[j]? = some b'
                ∧ (doc.id = card.docId → b.id ≠ card.blockId → b' = b)
                ∧ (doc.id = card.docId → b.id = card.blockId →
                    b' = { b with srsData := some (updateSrsForRating
                            (b.srsData.getD srsDefault) rating now) })) := by
  constructor
  · intro srs
    by_cases hf : rating.isFail
    · simp [updateSrsForRating, hf]
    · simp [updateSrsForRating, hf]
  · intro i doc hdoc
    have hmap : (handleUpdateCardProgress docs card rating now)[i]?
        = Option.map (fun doc : Document =>
            if doc.id ≠ card.docId then doc
            else
              { doc with blocks := doc.blocks.map fun b =>
                  if b.id ≠ card.blockId then b
                  else { b with
                           srsData := some (updateSrsForRating
                             (b.srsData.getD srsDefault) rating now) } })
          docs[i]? := List.getElem?_map _ _ _
    rw [hdoc, Option.map_some'] at hmap
    by_cases hid : doc.id ≠ card.docId
    · rw [if_pos hid] at hmap
      exact ⟨doc, hmap, rfl, rfl, rfl, rfl, fun _ => rfl,
        fun j b hb => ⟨b, hb, fun _ _ => rfl,
          fun hdid => absurd hdid hid⟩⟩
    · rw [if_neg hid] at hmap
      refine ⟨_, hmap, rfl, rfl, rfl, rfl,
        fun hcontra => absurd hcontra hid, ?_⟩
      intro j b hb
      have hbmap : (doc.blocks.map fun b : Block =>
            if b.id ≠ card.blockId then b
            else { b with srsData := some (updateSrsForRating (b.srsData.getD srsDefault) rating now) })[j]?
          = Option.map (fun b : Block =>
              if b.id ≠ card.blockId then b
              else { b with srsData := some (updateSrsForRating (b.srsData.getD srsDefault) rating now) })
            doc.blocks[j]? := List.getElem?_map _ _ _
      rw [hb, Option.map_some'] at hbmap
      by_cases hbid : b.id ≠ card.blockId
      · rw [if_pos hbid] at hbmap
        exact ⟨b, hbmap, fun _ _ => rfl, fun _ hbeq => absurd hbeq hbid⟩
      · rw [if_neg hbid] at hbmap
        exact ⟨_, hbmap, fun _ hbne => absurd hbne (by simpa using hbid),
          fun _ _ => rfl⟩

/-- Witness for claim C7 applying the frame theorem at the sample
document and its rated card. -/
theorem c7_rating_frame_witness :
    ([bidiDoc][0]? = some bidiDoc)
    ∧ (bidiDoc.blocks[0]? = some bidiBlock)
    ∧ ∃ doc',
        (handleUpdateCardProgress [bidiDoc] ratedCard Rating.good 99)[0]?
          = some doc'
        ∧ doc'.id = bidiDoc.id
        ∧ ∃ b', doc'.blocks[0]? = some b'
            ∧ b' = { bidiBlock with srsData := some (updateSrsForRating sampleSrs Rating.good 99) } := by
  refine ⟨by decide, by decide, ?_⟩
  obtain ⟨doc', hd, hid, -, -, -, -, hblocks⟩ :=
    (c7_rating_frame [bidiDoc] ratedCard Rating.good 99).2 0 bidiDoc (by decide)
  obtain ⟨b', hb', -, hupd⟩ := hblocks 0 bidiBlock (by decide)
  exact ⟨doc', hd, hid, b', hb', hupd (by decide) (by decide)⟩

end MemNote

namespace MemNote

/-- Claim C8: for every derived card set and every leech threshold,
the leech and struggling buckets are disjoint, the enabled bucket is
exactly the union of leech, struggling and the enabled zero-lapse
cards, enabled and disabled are disjoint, and enabled together with
disabled covers the whole table. -/
theorem c8_classification_partition (blocks : List Block) (L : Nat) :
    (tableData blocks).filter (fun r => isLeechRow L r && isStrugglingRow L r)
      = []
    ∧ (tableData blocks).filter (fun r => isEnabledRow r)
      = (tableData blocks).filter
          (fun r => isLeechRow L r || isStrugglingRow L r
                    || (!r.disabled && r.lapses == 0))
    ∧ (tableData blocks).filter (fun r => isEnabledRow r && isDisabledRow r)
      = []
    ∧ (tableData blocks).filter (fun r => isEnabledRow r || isDisabledRow r)
      = tableData blocks := by
  refine ⟨?_, ?_, ?_, ?_⟩
  · rw [List.filter_eq_nil_iff]
    intro r _ h
    simp only [isLeechRow, isStrugglingRow, Bool.and_eq_true,
               decide_eq_true_eq] at h
    omega
  · apply List.filter_congr
    intro r _
    rw [Bool.eq_iff_iff]
    simp only [isEnabledRow, isLeechRow, isStrugglingRow,
               Bool.and_eq_true, Bool.or_eq_true, decide_eq_true_eq,
               Bool.not_eq_true', beq_iff_eq]
    constructor
    · intro hd
      by_cases h0 : r.lapses = 0
      · exact Or.inr ⟨hd, h0⟩
      · by_cases hL : r.lapses < L
        · exact Or.inl (Or.inr ⟨⟨Nat.pos_of_ne_zero h0, hL⟩, hd⟩)
        · exact Or.inl (Or.inl ⟨by omega, hd⟩)
    · rintro ((⟨-, hd⟩ | ⟨-, hd⟩) | ⟨hd, -⟩) <;> exact hd
  · rw [List.filter_eq_nil_iff]
    intro r _ h
    simp only [isEnabledRow, isDisabledRow, Bool.and_eq_true,
               Bool.not_eq_true'] at h
    exact absurd (h.1 ▸ h.2) Bool.false_ne_true
  · rw [List.filter_eq_self]
    intro r _
    simp only [isEnabledRow, isDisabledRow, Bool.not_or_self]

end MemNote
